import Mathlib

/-!
Verification development for the voice-casting recommendation feature.

The embedding covers:
  * the shared data model (ScriptPart, AiRecommendation);
  * the analyze pipeline of the VoiceFinder component (handleAnalyze):
    empty-query guard, the response-text substitution, JSON parsing,
    field defaulting, and the construction of the recommendation record;
  * the presenter (AiResultCard): the markdown heading normalization
    applied to systemInstruction, and the copy-to-clipboard state machine.

Strings are modelled as Lean String (a structure over List Char); the
character-level scanning functions operate on List Char.
-/

/-- JavaScript whitespace (the regex class \s, which is also the set trimmed
by String.prototype.trim): ASCII whitespace, NBSP, BOM, and the Unicode
space separators plus the line/paragraph separators. -/
def isJsWs (c : Char) : Bool :=
  c = ' ' || c = '\t' || c = '\n' || c = '\r' || c = '\x0b' || c = '\x0c' ||
  c = '\u00A0' || c = '\uFEFF' || c = '\u1680' ||
  (0x2000 ≤ c.toNat && c.toNat ≤ 0x200A) ||
  c = '\u2028' || c = '\u2029' || c = '\u202F' || c = '\u205F' || c = '\u3000'

/-- JavaScript String.prototype.trim: drop leading and trailing whitespace. -/
def jsTrim (s : String) : String :=
  String.mk (((s.toList.dropWhile isJsWs).reverse.dropWhile isJsWs).reverse)

/-- One line of dialogue, as declared in types.ts. -/
structure ScriptPart where
  speaker : String
  text : String
  voiceName : String
deriving DecidableEq, Repr

/-- The canonical recommendation record, as declared in types.ts.
In the TypeScript declaration isMultiSpeaker and scriptParts are optional
fields; handleAnalyze always sets isMultiSpeaker explicitly, so it is
modelled as Bool, while scriptParts (set only in script mode) is an
Option. -/
structure AiRecommendation where
  voiceNames : List String
  systemInstruction : String
  sampleText : String
  isMultiSpeaker : Bool
  scriptParts : Option (List ScriptPart)
deriving DecidableEq, Repr

/-- The two analysis modes of the VoiceFinder dialog. -/
inductive Mode where
  | persona
  | script
deriving DecidableEq, Repr

/-- Accumulator form of JavaScript Array.from(new Set(l)): keep the first
occurrence of each element, in insertion order; seen collects the elements
already emitted. -/
def arrayFromSetAux (seen : List String) : List String → List String
  | [] => []
  | x :: xs =>
    if x ∈ seen then arrayFromSetAux seen xs
    else x :: arrayFromSetAux (x :: seen) xs

/-- JavaScript Array.from(new Set(l)): deduplication in insertion order
(a JS Set iterates in insertion order, keeping the first occurrence). -/
def arrayFromSet (l : List String) : List String := arrayFromSetAux [] l

/-- Specification-side deduplication keeping the first occurrence of each
element in order: emit the head, then recurse on the tail with all later
copies of the head removed.  Used to state the insertion-order property of
arrayFromSet. -/
def firstOccurDedup : List String → List String
  | [] => []
  | x :: xs => x :: firstOccurDedup (xs.filter (fun y => !(y == x)))
termination_by l => l.length
decreasing_by
  simp only [List.length_cons]
  exact Nat.lt_succ_of_le (List.length_filter_le _ _)

/-- The fields of the parsed model response that handleAnalyze reads
(result.recommendedVoices, result.systemInstruction, result.sampleText,
result.scriptParts); none model a field that is absent (or null, which the
code treats the same through the falsy-default pattern). -/
structure ParsedResult where
  recommendedVoices : Option (List String)
  systemInstruction : Option String
  sampleText : Option String
  scriptParts : Option (List ScriptPart)
deriving DecidableEq, Repr

/-- The construction of the AiRecommendation passed to onRecommendation,
from the parsed response (lines 111-126 of the VoiceFinder component):
persona mode uses recommendedVoices with default [], script mode derives
voiceNames by Array.from(new Set(...)) over the per-part voiceName values
and carries scriptParts (default []).  String fields default to the empty
string. -/
def makeRecommendation (mode : Mode) (result : ParsedResult) : AiRecommendation :=
  match mode with
  | .persona =>
    { voiceNames := result.recommendedVoices.getD []
      systemInstruction := result.systemInstruction.getD ""
      sampleText := result.sampleText.getD ""
      isMultiSpeaker := false
      scriptParts := none }
  | .script =>
    { voiceNames := arrayFromSet (((result.scriptParts.getD []).map ScriptPart.voiceName))
      systemInstruction := result.systemInstruction.getD ""
      sampleText := result.sampleText.getD ""
      isMultiSpeaker := true
      scriptParts := some (result.scriptParts.getD []) }

/-- Attempt to match the tail of the regex ([^\n])\s*(##) at the head of
cs: skip the (maximal) run of whitespace, then require two consecutive
number-sign characters; returns the remainder after the two characters.
The maximal run is the only candidate for \s* since a number sign is not
whitespace. -/
def matchHeading : List Char → Option (List Char)
  | [] => none
  | c :: cs =>
    if isJsWs c then matchHeading cs
    else if c = '#' ∧ cs.head? = some '#' then some cs.tail
    else none

/-- Fuel-driven body of the global regex replace
text.replace(pattern, dollar1-newline-newline-dollar2) with pattern
([^\n])\s*(##), scanning left to right: at each position whose character
is not a newline, if the remainder (after a maximal whitespace run)
starts with two number signs, the whole match is replaced by the
character followed by a blank line and the two number signs, and scanning
resumes after the match; otherwise the scan advances one character.
Every step strictly shortens the list scanned (a successful match removes
at least the two number signs), so fuel equal to the length of the input
is never exhausted; the fuel argument only makes the recursion
structural. -/
def headingNormalizeFuel : Nat → List Char → List Char
  | 0, l => l
  | _, [] => []
  | fuel + 1, c :: rest =>
    if c = '\n' then c :: headingNormalizeFuel fuel rest
    else
      match matchHeading rest with
      | some tail => c :: '\n' :: '\n' :: '#' :: '#' :: headingNormalizeFuel fuel tail
      | none => c :: headingNormalizeFuel fuel rest

/-- The global regex replace applied by the presenter to the direction
notes: insert a blank line between a non-newline character and a
following pair of number signs, collapsing the whitespace between
them. -/
def headingNormalize (l : List Char) : List Char :=
  headingNormalizeFuel l.length l

/-- The formattedInstruction memo of AiResultCard: empty systemInstruction
yields the empty string, otherwise the heading normalization is applied
(the guard mirrors the falsy check on the string). -/
def formattedInstruction (systemInstruction : String) : String :=
  if systemInstruction = "" then ""
  else String.mk (headingNormalize systemInstruction.toList)

/-- The copy-to-clipboard state of AiResultCard: copiedSection is the
section identifier currently flagged as copied (null when none), timers
the fire times of the pending setTimeout callbacks (each callback resets
copiedSection to null). -/
structure CopyState where
  copiedSection : Option String
  timers : List Nat
deriving DecidableEq, Repr

/-- Initial copy state: useState(null), no pending timer. -/
def initCopyState : CopyState := { copiedSection := none, timers := [] }

/-- The fixed display delay of the copied flag (milliseconds), from the
setTimeout call in handleCopy. -/
def copyResetDelay : Nat := 2000

/-- handleCopy(text, section) at time now: writes the clipboard (external
effect, not modelled), sets copiedSection to the section identifier, and
schedules a reset callback copyResetDelay later. -/
def handleCopy (st : CopyState) (sectionId : String) (now : Nat) : CopyState :=
  { copiedSection := some sectionId, timers := st.timers ++ [now + copyResetDelay] }

/-- Advance the event loop to time now: every pending timer whose fire time
has been reached runs its callback (setting copiedSection to null) and is
removed.  All callbacks write the same value, so firing order is
irrelevant. -/
def elapseTo (st : CopyState) (now : Nat) : CopyState :=
  { copiedSection :=
      if st.timers.any (fun t => decide (t ≤ now)) then none else st.copiedSection
    timers := st.timers.filter (fun t => decide (now < t)) }

/-- The JSON value tree produced by JSON.parse.  Numbers keep their raw
token text (no numeric field of the response is ever read by the code, so
their value is never needed). -/
inductive Json where
  | null
  | bool (b : Bool)
  | num (raw : String)
  | str (s : String)
  | arr (elems : List Json)
  | obj (fields : List (String × Json))

/-- Insignificant whitespace of the JSON grammar (space, tab, line feed,
carriage return). -/
def isJsonWs (c : Char) : Bool :=
  c = ' ' || c = '\t' || c = '\n' || c = '\r'

/-- Skip insignificant JSON whitespace. -/
def skipJsonWs (cs : List Char) : List Char := cs.dropWhile isJsonWs

/-- Value of one hexadecimal digit. -/
def hexVal (c : Char) : Option Nat :=
  if '0' ≤ c ∧ c ≤ '9' then some (c.toNat - '0'.toNat)
  else if 'a' ≤ c ∧ c ≤ 'f' then some (c.toNat - 'a'.toNat + 10)
  else if 'A' ≤ c ∧ c ≤ 'F' then some (c.toNat - 'A'.toNat + 10)
  else none

/-- The single-character escape sequences of JSON strings. -/
def escChar : Char → Option Char
  | '\x22' => some '\x22'
  | '\\' => some '\\'
  | '/' => some '/'
  | 'b' => some '\x08'
  | 'f' => some '\x0c'
  | 'n' => some '\n'
  | 'r' => some '\r'
  | 't' => some '\t'
  | _ => none

/-- Parse the body of a JSON string after the opening quote, returning the
decoded characters and the remainder after the closing quote.  Unescaped
control characters are rejected, escape sequences (including \uXXXX) are
decoded. -/
def parseJStr : List Char → Option (List Char × List Char)
  | [] => none
  | c :: cs =>
    if c = '\x22' then some ([], cs)
    else if c = '\\' then
      match cs with
      | 'u' :: h1 :: h2 :: h3 :: h4 :: r => do
        let a ← hexVal h1
        let b ← hexVal h2
        let c2 ← hexVal h3
        let d ← hexVal h4
        let (s, r2) ← parseJStr r
        some (Char.ofNat (((a * 16 + b) * 16 + c2) * 16 + d) :: s, r2)
      | e :: r => do
        let ec ← escChar e
        let (s, r2) ← parseJStr r
        some (ec :: s, r2)
      | [] => none
    else if c.toNat < 32 then none
    else do
      let (s, r2) ← parseJStr cs
      some (c :: s, r2)

/-- Parse the integer part of a JSON number: a single 0, or a nonzero
digit followed by digits (a leading zero may not be followed by further
digits). -/
def parseIntPart : List Char → Option (List Char × List Char)
  | [] => none
  | c :: cs =>
    if c = '0' then some (['0'], cs)
    else if c.isDigit then
      some (c :: cs.takeWhile Char.isDigit, cs.dropWhile Char.isDigit)
    else none

/-- Parse the optional fraction part of a JSON number (a dot followed by at
least one digit). -/
def parseFrac : List Char → Option (List Char × List Char)
  | '.' :: cs =>
    let ds := cs.takeWhile Char.isDigit
    if ds.isEmpty then none else some ('.' :: ds, cs.dropWhile Char.isDigit)
  | cs => some ([], cs)

/-- Parse the optional exponent part of a JSON number (e or E, optional
sign, at least one digit). -/
def parseExp : List Char → Option (List Char × List Char)
  | c :: cs =>
    if c = 'e' ∨ c = 'E' then
      match cs with
      | s :: cs2 =>
        if s = '+' ∨ s = '-' then
          (let ds := cs2.takeWhile Char.isDigit
           if ds.isEmpty then none
           else some (c :: s :: ds, cs2.dropWhile Char.isDigit))
        else
          (let ds := (s :: cs2).takeWhile Char.isDigit
           if ds.isEmpty then none
           else some (c :: ds, (s :: cs2).dropWhile Char.isDigit))
      | [] => none
    else some ([], c :: cs)
  | [] => some ([], [])

/-- Parse a JSON number token (optional minus sign, integer part, optional
fraction and exponent), returning the raw token characters. -/
def parseNum (cs : List Char) : Option (List Char × List Char) := do
  let (sgn, cs1) :=
    match cs with
    | '-' :: r => (['-'], r)
    | _ => ([], cs)
  let (ip, cs2) ← parseIntPart cs1
  let (fp, cs3) ← parseFrac cs2
  let (ep, cs4) ← parseExp cs3
  some (sgn ++ ip ++ fp ++ ep, cs4)

mutual

/-- Parse one JSON value (after skipping leading whitespace).  The fuel
argument bounds the recursion depth; jsonParse supplies enough fuel for
any input of the given length. -/
def parseValue : Nat → List Char → Option (Json × List Char)
  | 0, _ => none
  | fuel + 1, cs =>
    match skipJsonWs cs with
    | 'n' :: 'u' :: 'l' :: 'l' :: r => some (Json.null, r)
    | 't' :: 'r' :: 'u' :: 'e' :: r => some (Json.bool true, r)
    | 'f' :: 'a' :: 'l' :: 's' :: 'e' :: r => some (Json.bool false, r)
    | '\x22' :: r => (parseJStr r).map (fun p => (Json.str (String.mk p.1), p.2))
    | '\x7b' :: r =>
      (match skipJsonWs r with
       | '\x7d' :: r2 => some (Json.obj [], r2)
       | _ => (parseMembers fuel r).map (fun p => (Json.obj p.1, p.2)))
    | '[' :: r =>
      (match skipJsonWs r with
       | ']' :: r2 => some (Json.arr [], r2)
       | _ => (parseElems fuel r).map (fun p => (Json.arr p.1, p.2)))
    | r => (parseNum r).map (fun p => (Json.num (String.mk p.1), p.2))

/-- Parse the comma-separated elements of a nonempty JSON array, up to and
including the closing bracket. -/
def parseElems : Nat → List Char → Option (List Json × List Char)
  | 0, _ => none
  | fuel + 1, cs => do
    let (v, r) ← parseValue fuel cs
    match skipJsonWs r with
    | ',' :: r2 => do
      let (vs, r3) ← parseElems fuel r2
      some (v :: vs, r3)
    | ']' :: r2 => some ([v], r2)
    | _ => none

/-- Parse the comma-separated members of a nonempty JSON object, up to and
including the closing brace. -/
def parseMembers : Nat → List Char → Option (List (String × Json) × List Char)
  | 0, _ => none
  | fuel + 1, cs =>
    match skipJsonWs cs with
    | '\x22' :: r => do
      let (k, r2) ← parseJStr r
      match skipJsonWs r2 with
      | ':' :: r3 => do
        let (v, r4) ← parseValue fuel r3
        match skipJsonWs r4 with
        | ',' :: r5 => do
          let (ms, r6) ← parseMembers fuel r5
          some ((String.mk k, v) :: ms, r6)
        | '\x7d' :: r5 => some ([(String.mk k, v)], r5)
        | _ => none
      | _ => none
    | _ => none

end

/-- JSON.parse: parse one value, allow trailing whitespace only, reject
everything else (by throwing, modelled as none). -/
def jsonParse (s : String) : Option Json :=
  match parseValue (2 * s.toList.length + 2) s.toList with
  | some (j, rest) => if skipJsonWs rest = [] then some j else none
  | none => none

/-- Property lookup on the field list of a parsed JSON object: with
duplicate keys, JSON.parse keeps the last occurrence. -/
def getField (fields : List (String × Json)) (k : String) : Option Json :=
  ((fields.filter (fun f => f.1 == k)).getLast?).map Prod.snd

/-- Property access on a parsed JSON value: an object yields the field (or
absent), any other value has no such property. -/
def jsonField (j : Json) (k : String) : Option Json :=
  match j with
  | .obj fs => getField fs k
  | _ => none

/-- Read a JSON value as a string. -/
def asString : Json → Option String
  | .str s => some s
  | _ => none

/-- Read a JSON value as an array of strings. -/
def asStringList : Json → Option (List String)
  | .arr xs => xs.mapM asString
  | _ => none

/-- Read one element of the scriptParts array; the response schema sent
with the request marks speaker, text and voiceName required strings, so a
well-formed element always decodes. -/
def decodeScriptPart (j : Json) : Option ScriptPart :=
  match j with
  | .obj fs => do
    let sp ← (getField fs "speaker").bind asString
    let tx ← (getField fs "text").bind asString
    let vn ← (getField fs "voiceName").bind asString
    some { speaker := sp, text := tx, voiceName := vn }
  | _ => none

/-- Read the scriptParts field as an array of script parts. -/
def decodeScriptParts : Json → Option (List ScriptPart)
  | .arr xs => xs.mapM decodeScriptPart
  | _ => none

/-- The four properties handleAnalyze reads off the parsed response.  A
missing field (and null, which the falsy-default pattern of the code
treats identically) becomes none; the response schema passed to the model
guarantees present fields are well-typed. -/
def decodeResult (j : Json) : ParsedResult :=
  { recommendedVoices := (jsonField j "recommendedVoices").bind asStringList
    systemInstruction := (jsonField j "systemInstruction").bind asString
    sampleText := (jsonField j "sampleText").bind asString
    scriptParts := (jsonField j "scriptParts").bind decodeScriptParts }

/-- The external model call, seen from handleAnalyze: either the request
construction or network call throws, or a response arrives whose text
field is absent or some string. -/
inductive ModelResponse where
  | netError
  | ok (text : Option String)

/-- The observable outcome of one handleAnalyze invocation: returned
before any request (empty query), reached the catch block, or called
onRecommendation with a recommendation record. -/
inductive AnalyzeTrace where
  | noop
  | failed
  | succeeded (r : AiRecommendation)
deriving DecidableEq, Repr

/-- The expression response.text or-else the object literal: a missing or
empty text payload is replaced by the two-character string of an empty
JSON object before parsing. -/
def effectiveText : Option String → String
  | none => "\x7b\x7d"
  | some s => if s = "" then "\x7b\x7d" else s

/-- The user-facing message set by the catch block. -/
def errorMessage : String := "Failed to analyze. Check your script or try again."

/-- One invocation of handleAnalyze: guard on the trimmed query, issue the
request (its outcome supplied as resp), substitute the empty-object text,
parse, decode and normalize.  Any throw (network or JSON.parse) lands in
the catch block. -/
def handleAnalyze (mode : Mode) (query : String) (resp : ModelResponse) : AnalyzeTrace :=
  if jsTrim query = "" then .noop
  else
    match resp with
    | .netError => .failed
    | .ok t =>
      match jsonParse (effectiveText t) with
      | none => .failed
      | some j => .succeeded (makeRecommendation mode (decodeResult j))

/-- The UI state the analyze flow writes: the recommendation held by the
parent (written by onRecommendation) and the error message of the
dialog. -/
structure FinderState where
  recommendation : Option AiRecommendation
  error : Option String
deriving DecidableEq, Repr

/-- Effect of one analyze invocation on the UI state: a no-op leaves the
state untouched, the catch block sets only the error message (the
previously stored recommendation stays), success stores the new
recommendation, the error having been cleared at the start of the try
block. -/
def applyAnalyze (st : FinderState) (mode : Mode) (query : String)
    (resp : ModelResponse) : FinderState :=
  match handleAnalyze mode query resp with
  | .noop => st
  | .failed => { st with error := some errorMessage }
  | .succeeded r => { recommendation := some r, error := none }

/-- The all-default recommendation produced when every response field is
missing: empty voice list, empty strings, and in script mode an empty
scriptParts list. -/
def defaultRecommendation : Mode → AiRecommendation
  | .persona =>
    { voiceNames := [], systemInstruction := "", sampleText := "",
      isMultiSpeaker := false, scriptParts := none }
  | .script =>
    { voiceNames := [], systemInstruction := "", sampleText := "",
      isMultiSpeaker := true, scriptParts := some [] }

/-- A concrete script-mode response text whose two script parts share one
voiceName (used to exercise the deduplication on a concrete run). -/
def sampleScriptJson : String :=
  "\x7b\x22scriptParts\x22:[\x7b\x22speaker\x22:\x22A\x22,\x22text\x22:\x22x\x22,\x22voiceName\x22:\x22V\x22\x7d,\x7b\x22speaker\x22:\x22B\x22,\x22text\x22:\x22y\x22,\x22voiceName\x22:\x22V\x22\x7d]\x7d"

/-- The recommendation the analyze pipeline produces from
sampleScriptJson in script mode. -/
def sampleScriptRec : AiRecommendation :=
  { voiceNames := ["V"], systemInstruction := "", sampleText := "",
    isMultiSpeaker := true,
    scriptParts := some
      [{ speaker := "A", text := "x", voiceName := "V" },
       { speaker := "B", text := "y", voiceName := "V" }] }

theorem arrayFromSetAux_mem : ∀ (l seen : List String) (a : String),
    a ∈ arrayFromSetAux seen l ↔ a ∈ l ∧ a ∉ seen := by
  intro l
  induction l with
  | nil => intro seen a; simp [arrayFromSetAux]
  | cons x xs ih =>
    intro seen a
    rw [arrayFromSetAux]
    split_ifs with hx
    · rw [ih]
      simp only [List.mem_cons]
      constructor
      · rintro ⟨h1, h2⟩
        exact ⟨Or.inr h1, h2⟩
      · rintro ⟨h1 | h1, h2⟩
        · exact absurd (h1 ▸ hx) h2
        · exact ⟨h1, h2⟩
    · simp only [List.mem_cons, ih, List.mem_cons]
      constructor
      · rintro (rfl | ⟨h1, h2⟩)
        · exact ⟨Or.inl rfl, hx⟩
        · exact ⟨Or.inr h1, fun hc => h2 (Or.inr hc)⟩
      · rintro ⟨rfl | h1, h2⟩
        · exact Or.inl rfl
        · by_cases hax : a = x
          · exact Or.inl hax
          · exact Or.inr ⟨h1, fun hc => by rcases hc with hc | hc
                                           exacts [hax hc, h2 hc]⟩

theorem arrayFromSetAux_nodup : ∀ (l seen : List String),
    (arrayFromSetAux seen l).Nodup := by
  intro l
  induction l with
  | nil => intro seen; simp [arrayFromSetAux]
  | cons x xs ih =>
    intro seen
    rw [arrayFromSetAux]
    split_ifs with hx
    · exact ih seen
    · rw [List.nodup_cons]
      refine ⟨fun hc => ?_, ih (x :: seen)⟩
      rw [arrayFromSetAux_mem] at hc
      exact hc.2 (List.mem_cons_self x seen)

theorem arrayFromSetAux_eq_firstOccurDedup : ∀ (l seen : List String),
    arrayFromSetAux seen l =
      firstOccurDedup (l.filter (fun y => decide (y ∉ seen))) := by
  intro l
  induction l with
  | nil => intro seen; simp [arrayFromSetAux, firstOccurDedup]
  | cons x xs ih =>
    intro seen
    rw [arrayFromSetAux]
    split_ifs with hx
    · rw [List.filter_cons, if_neg (by simpa using hx)]
      exact ih seen
    · rw [List.filter_cons, if_pos (by simpa using hx)]
      rw [firstOccurDedup]
      congr 1
      rw [ih (x :: seen), List.filter_filter]
      congr 1
      apply List.filter_congr
      intro a _
      by_cases hax : a = x
      · simp [hax]
      · by_cases has : a ∈ seen
        · simp [hax, has]
        · simp [hax, has, List.mem_cons]

theorem arrayFromSet_eq_firstOccurDedup (l : List String) :
    arrayFromSet l = firstOccurDedup l := by
  have hf : l.filter (fun y => decide (y ∉ ([] : List String))) = l := by
    apply List.filter_eq_self.mpr
    intro a _
    simp
  rw [arrayFromSet, arrayFromSetAux_eq_firstOccurDedup, hf]

theorem handleAnalyze_succeeded_inv (mode : Mode) (query : String)
    (resp : ModelResponse) (r : AiRecommendation)
    (h : handleAnalyze mode query resp = AnalyzeTrace.succeeded r) :
    ∃ j : Json, r = makeRecommendation mode (decodeResult j) := by
  unfold handleAnalyze at h
  split_ifs at h with hq
  split at h
  · simp at h
  · split at h
    · simp at h
    · rename_i j hj
      simp only [AnalyzeTrace.succeeded.injEq] at h
      exact ⟨j, h.symm⟩

theorem matchHeading_some_length : ∀ (l t : List Char),
    matchHeading l = some t → t.length < l.length := by
  intro l
  induction l with
  | nil => intro t ht; simp [matchHeading] at ht
  | cons a as ih =>
    intro t ht
    rw [matchHeading] at ht
    split_ifs at ht with hw hh
    · have := ih t ht
      simp only [List.length_cons]; omega
    · obtain ⟨ha, hhd⟩ := hh
      have hne : as ≠ [] := by intro he; rw [he] at hhd; simp at hhd
      have hlt : as.tail.length = as.length - 1 := List.length_tail as
      have hpos : 0 < as.length := List.length_pos.mpr hne
      injection ht with h2
      subst h2
      simp only [List.length_cons]; omega

theorem matchHeading_cons_ws {d : Char} (hd : isJsWs d = true) (l : List Char) :
    matchHeading (d :: l) = matchHeading l := by
  rw [matchHeading, if_pos hd]

theorem matchHeading_cons_not_ws {d : Char} (hd : isJsWs d = false) (l : List Char) :
    matchHeading (d :: l) =
      if d = '#' ∧ l.head? = some '#' then some l.tail else none := by
  rw [matchHeading, if_neg (by simp [hd])]

theorem matchHeading_blank_heading (l : List Char) :
    matchHeading ('\n' :: '\n' :: '#' :: '#' :: l) = some l := by
  rw [matchHeading_cons_ws (by decide), matchHeading_cons_ws (by decide),
    matchHeading_cons_not_ws (by decide)]
  simp

theorem headingNormalizeFuel_nil : ∀ fuel : Nat,
    headingNormalizeFuel fuel [] = [] := by
  intro fuel
  cases fuel <;> rfl

theorem headingNormalizeFuel_congr : ∀ (fuel1 fuel2 : Nat) (l : List Char),
    l.length ≤ fuel1 → l.length ≤ fuel2 →
    headingNormalizeFuel fuel1 l = headingNormalizeFuel fuel2 l := by
  intro fuel1
  induction fuel1 with
  | zero =>
    intro fuel2 l hl _
    have hnil : l = [] := List.length_eq_zero.mp (Nat.le_zero.mp hl)
    subst hnil
    rw [headingNormalizeFuel_nil, headingNormalizeFuel_nil]
  | succ f1 ih =>
    intro fuel2 l hl1 hl2
    cases l with
    | nil => rw [headingNormalizeFuel_nil, headingNormalizeFuel_nil]
    | cons c rest =>
      cases fuel2 with
      | zero => simp at hl2
      | succ f2 =>
        have hr1 : rest.length ≤ f1 := by
          simp only [List.length_cons] at hl1; omega
        have hr2 : rest.length ≤ f2 := by
          simp only [List.length_cons] at hl2; omega
        rw [headingNormalizeFuel, headingNormalizeFuel]
        by_cases hc : c = '\n'
        · rw [if_pos hc, if_pos hc, ih f2 rest hr1 hr2]
        · rw [if_neg hc, if_neg hc]
          rcases hm : matchHeading rest with _ | tail
          · exact congrArg (fun x => c :: x) (ih f2 rest hr1 hr2)
          · have htl : tail.length < rest.length :=
              matchHeading_some_length rest tail hm
            exact congrArg (fun x => c :: '\n' :: '\n' :: '#' :: '#' :: x)
              (ih f2 tail (by omega) (by omega))

theorem headingNormalize_cons_nl (l : List Char) :
    headingNormalize ('\n' :: l) = '\n' :: headingNormalize l := by
  rw [headingNormalize, headingNormalize]
  simp only [List.length_cons, headingNormalizeFuel, if_pos]

theorem headingNormalize_cons_match {c : Char} {l tail : List Char}
    (hc : c ≠ '\n') (hm : matchHeading l = some tail) :
    headingNormalize (c :: l) =
      c :: '\n' :: '\n' :: '#' :: '#' :: headingNormalize tail := by
  rw [headingNormalize, headingNormalize]
  simp only [List.length_cons, headingNormalizeFuel, if_neg hc, hm]
  have htl : tail.length < l.length := matchHeading_some_length l tail hm
  rw [headingNormalizeFuel_congr l.length tail.length tail (by omega) (le_refl _)]

theorem headingNormalize_cons_nomatch {c : Char} {l : List Char}
    (hc : c ≠ '\n') (hm : matchHeading l = none) :
    headingNormalize (c :: l) = c :: headingNormalize l := by
  rw [headingNormalize, headingNormalize]
  simp only [List.length_cons, headingNormalizeFuel, if_neg hc, hm]

theorem headingNormalize_head (l : List Char) :
    (headingNormalize l).head? = l.head? := by
  cases l with
  | nil => rfl
  | cons c rest =>
    by_cases hc : c = '\n'
    · subst hc; rw [headingNormalize_cons_nl]; rfl
    · rcases hm : matchHeading rest with _ | tail
      · rw [headingNormalize_cons_nomatch hc hm]; rfl
      · rw [headingNormalize_cons_match hc hm]; rfl

theorem matchHeading_none_headingNormalize :
    ∀ (n : Nat) (l : List Char), l.length ≤ n → matchHeading l = none →
      matchHeading (headingNormalize l) = none := by
  intro n
  induction n with
  | zero =>
    intro l hl _
    have hnil : l = [] := List.length_eq_zero.mp (Nat.le_zero.mp hl)
    subst hnil; rfl
  | succ n ih =>
    intro l hl hm
    cases l with
    | nil => rfl
    | cons d l2 =>
      have hl2 : l2.length ≤ n := by
        simp only [List.length_cons] at hl; omega
      by_cases hd : d = '\n'
      · subst hd
        rw [headingNormalize_cons_nl]
        rw [matchHeading_cons_ws (by decide)] at hm ⊢
        exact ih l2 hl2 hm
      · rcases hm2 : matchHeading l2 with _ | t
        · rw [headingNormalize_cons_nomatch hd hm2]
          by_cases hw : isJsWs d
          · rw [matchHeading_cons_ws hw] at hm ⊢
            exact ih l2 hl2 hm
          · have hwf : isJsWs d = false := by simpa using hw
            rw [matchHeading_cons_not_ws hwf] at hm
            rw [matchHeading_cons_not_ws hwf, headingNormalize_head]
            split_ifs at hm with hcond
            rw [if_neg hcond]
        · by_cases hw : isJsWs d
          · rw [matchHeading_cons_ws hw, hm2] at hm
            simp at hm
          · have hwf : isJsWs d = false := by simpa using hw
            rw [headingNormalize_cons_match hd hm2]
            rw [matchHeading_cons_not_ws hwf]
            simp

theorem headingNormalize_idem_aux :
    ∀ (n : Nat) (l : List Char), l.length ≤ n →
      headingNormalize (headingNormalize l) = headingNormalize l := by
  intro n
  induction n with
  | zero =>
    intro l hl
    have hnil : l = [] := List.length_eq_zero.mp (Nat.le_zero.mp hl)
    subst hnil; rfl
  | succ n ih =>
    intro l hl
    cases l with
    | nil => rfl
    | cons c rest =>
      have hrest : rest.length ≤ n := by
        simp only [List.length_cons] at hl; omega
      by_cases hc : c = '\n'
      · subst hc
        rw [headingNormalize_cons_nl, headingNormalize_cons_nl, ih rest hrest]
      · rcases hm : matchHeading rest with _ | tail
        · rw [headingNormalize_cons_nomatch hc hm]
          rw [headingNormalize_cons_nomatch hc
            (matchHeading_none_headingNormalize rest.length rest (le_refl _) hm)]
          rw [ih rest hrest]
        · rw [headingNormalize_cons_match hc hm]
          rw [headingNormalize_cons_match hc (matchHeading_blank_heading _)]
          have htl : tail.length ≤ n := by
            have := matchHeading_some_length rest tail hm
            omega
          rw [ih tail htl]

/-- C1: for every successful script-mode invocation of analyze, the
voiceNames field of the resulting AiRecommendation contains exactly the
distinct voiceName values occurring across its scriptParts entries, with
no duplicates, even when the same voiceName appears in multiple script
parts. -/
theorem claim_C1_script_voiceNames_dedup (query : String) (resp : ModelResponse)
    (r : AiRecommendation)
    (h : handleAnalyze Mode.script query resp = AnalyzeTrace.succeeded r) :
    r.voiceNames.Nodup ∧
      ∀ v : String, v ∈ r.voiceNames ↔
        v ∈ (r.scriptParts.getD []).map ScriptPart.voiceName := by
  obtain ⟨j, rfl⟩ := handleAnalyze_succeeded_inv _ _ _ _ h
  simp only [makeRecommendation, arrayFromSet, Option.getD_some]
  constructor
  · exact arrayFromSetAux_nodup _ _
  · intro v
    rw [arrayFromSetAux_mem]
    simp

/-- Witness for C1: a concrete script-mode run whose two parts share one
voiceName yields the single deduplicated name. -/
theorem claim_C1_witness :
    sampleScriptRec.voiceNames.Nodup ∧
      ∀ v : String, v ∈ sampleScriptRec.voiceNames ↔
        v ∈ (sampleScriptRec.scriptParts.getD []).map ScriptPart.voiceName :=
  claim_C1_script_voiceNames_dedup "q" (ModelResponse.ok (some sampleScriptJson))
    sampleScriptRec (by decide)

/-- C2: every AiRecommendation produced by analyze has scriptParts defined
if and only if isMultiSpeaker is true; persona mode yields isMultiSpeaker
false with scriptParts undefined, script mode yields isMultiSpeaker true
with scriptParts defined. -/
theorem claim_C2_scriptParts_iff_isMultiSpeaker (mode : Mode) (query : String)
    (resp : ModelResponse) (r : AiRecommendation)
    (h : handleAnalyze mode query resp = AnalyzeTrace.succeeded r) :
    (r.scriptParts.isSome = true ↔ r.isMultiSpeaker = true) ∧
      (mode = Mode.persona → r.isMultiSpeaker = false ∧ r.scriptParts = none) ∧
      (mode = Mode.script → r.isMultiSpeaker = true ∧ r.scriptParts.isSome = true) := by
  obtain ⟨j, rfl⟩ := handleAnalyze_succeeded_inv _ _ _ _ h
  cases mode <;> simp [makeRecommendation]

/-- Witness for C2: a concrete successful persona-mode run. -/
theorem claim_C2_witness :
    ((defaultRecommendation Mode.persona).scriptParts.isSome = true ↔
        (defaultRecommendation Mode.persona).isMultiSpeaker = true) ∧
      (Mode.persona = Mode.persona →
        (defaultRecommendation Mode.persona).isMultiSpeaker = false ∧
          (defaultRecommendation Mode.persona).scriptParts = none) ∧
      (Mode.persona = Mode.script →
        (defaultRecommendation Mode.persona).isMultiSpeaker = true ∧
          (defaultRecommendation Mode.persona).scriptParts.isSome = true) :=
  claim_C2_scriptParts_iff_isMultiSpeaker Mode.persona "q" (ModelResponse.ok none)
    (defaultRecommendation Mode.persona) (by decide)

/-- C3: the markdown heading normalization applied by the presenter to
systemInstruction is idempotent: applying it twice yields the same result
as applying it once, for every input string. -/
theorem claim_C3_normalization_idempotent (s : String) :
    formattedInstruction (formattedInstruction s) = formattedInstruction s := by
  by_cases h1 : s = ""
  · subst h1; rfl
  · have h2 : formattedInstruction s = String.mk (headingNormalize s.toList) := by
      rw [formattedInstruction, if_neg h1]
    rw [h2, formattedInstruction]
    split_ifs with h3
    · exact h3.symm
    · show String.mk (headingNormalize (headingNormalize s.toList)) = _
      rw [headingNormalize_idem_aux s.toList.length s.toList (le_refl _)]

/-- C4: the heading normalization maps the unseparated input to the
blank-line separated form and leaves already separated text unchanged. -/
theorem claim_C4_heading_insertion_examples :
    formattedInstruction "Intro.##Scene One" = "Intro.\n\n##Scene One" ∧
      formattedInstruction "Intro.\n\n##Scene One" = "Intro.\n\n##Scene One" :=
  ⟨by decide, by decide⟩

/-- C5: for every query that is empty after trimming, invoking analyze is
a no-op: the trace shows the guard returned before any request, no error
is set and no recommendation is produced, whatever the network would have
answered. -/
theorem claim_C5_blank_query_noop (st : FinderState) (mode : Mode) (query : String)
    (resp : ModelResponse) (h : jsTrim query = "") :
    handleAnalyze mode query resp = AnalyzeTrace.noop ∧
      applyAnalyze st mode query resp = st := by
  have h1 : handleAnalyze mode query resp = AnalyzeTrace.noop := by
    unfold handleAnalyze
    rw [if_pos h]
  refine ⟨h1, ?_⟩
  unfold applyAnalyze
  rw [h1]

/-- Witness for C5: a whitespace-only query with a pending state. -/
theorem claim_C5_witness :
    jsTrim " \n  " = "" ∧
      (handleAnalyze Mode.persona " \n  " ModelResponse.netError = AnalyzeTrace.noop ∧
        applyAnalyze { recommendation := none, error := none } Mode.persona " \n  "
          ModelResponse.netError = { recommendation := none, error := none }) :=
  ⟨by decide, claim_C5_blank_query_noop { recommendation := none, error := none }
    Mode.persona " \n  " ModelResponse.netError (by decide)⟩

/-- C6: for every model response whose effective text payload fails JSON
parsing, analyze ends in the single generic failure: the error message is
set, onRecommendation is not invoked, and the previously stored
recommendation is unchanged. -/
theorem claim_C6_malformed_response_failure (st : FinderState) (mode : Mode)
    (query : String) (t : Option String) (hq : jsTrim query ≠ "")
    (hp : jsonParse (effectiveText t) = none) :
    handleAnalyze mode query (ModelResponse.ok t) = AnalyzeTrace.failed ∧
      applyAnalyze st mode query (ModelResponse.ok t) =
        { st with error := some errorMessage } ∧
      (applyAnalyze st mode query (ModelResponse.ok t)).recommendation =
        st.recommendation := by
  have h1 : handleAnalyze mode query (ModelResponse.ok t) = AnalyzeTrace.failed := by
    simp only [handleAnalyze, if_neg hq, hp]
  refine ⟨h1, ?_, ?_⟩
  · unfold applyAnalyze
    rw [h1]
  · unfold applyAnalyze
    rw [h1]

/-- Witness for C6: a malformed payload leaves a previously stored
recommendation in place and sets the error message. -/
theorem claim_C6_witness :
    (jsTrim "q" ≠ "" ∧ jsonParse (effectiveText (some "nonsense")) = none) ∧
      (handleAnalyze Mode.persona "q" (ModelResponse.ok (some "nonsense")) =
          AnalyzeTrace.failed ∧
        applyAnalyze { recommendation := some sampleScriptRec, error := none }
            Mode.persona "q" (ModelResponse.ok (some "nonsense")) =
          { recommendation := some sampleScriptRec, error := some errorMessage } ∧
        (applyAnalyze { recommendation := some sampleScriptRec, error := none }
            Mode.persona "q" (ModelResponse.ok (some "nonsense"))).recommendation =
          some sampleScriptRec) :=
  ⟨⟨by decide, by rfl⟩,
    claim_C6_malformed_response_failure
      { recommendation := some sampleScriptRec, error := none }
      Mode.persona "q" (some "nonsense") (by decide) (by rfl)⟩

/-- C7: for every model response that parses as JSON but lacks fields,
analyze succeeds with each missing string field defaulted to the empty
string and each missing array field defaulted to the empty sequence,
producing a complete normalized record rather than an error. -/
theorem claim_C7_missing_fields_defaulted (mode : Mode) (query : String)
    (s : String) (j : Json) (hq : jsTrim query ≠ "") (hs : s ≠ "")
    (hj : jsonParse s = some j) :
    handleAnalyze mode query (ModelResponse.ok (some s)) =
      AnalyzeTrace.succeeded (makeRecommendation mode (decodeResult j)) ∧
      ((decodeResult j).systemInstruction = none →
        (makeRecommendation mode (decodeResult j)).systemInstruction = "") ∧
      ((decodeResult j).sampleText = none →
        (makeRecommendation mode (decodeResult j)).sampleText = "") ∧
      (mode = Mode.persona → (decodeResult j).recommendedVoices = none →
        (makeRecommendation mode (decodeResult j)).voiceNames = []) ∧
      (mode = Mode.script → (decodeResult j).scriptParts = none →
        (makeRecommendation mode (decodeResult j)).voiceNames = [] ∧
          (makeRecommendation mode (decodeResult j)).scriptParts = some []) := by
  have hef : effectiveText (some s) = s := by
    rw [effectiveText, if_neg hs]
  refine ⟨?_, ?_, ?_, ?_, ?_⟩
  · simp only [handleAnalyze, if_neg hq, hef, hj]
  · intro hmiss
    cases mode <;> simp [makeRecommendation, hmiss]
  · intro hmiss
    cases mode <;> simp [makeRecommendation, hmiss]
  · rintro rfl hmiss
    simp [makeRecommendation, hmiss]
  · rintro rfl hmiss
    simp [makeRecommendation, hmiss, arrayFromSet, arrayFromSetAux]

/-- Witness for C7: a parsed response carrying only sampleText gets all
other fields defaulted. -/
theorem claim_C7_witness :
    (jsTrim "q" ≠ "" ∧ "\x7b\x22sampleText\x22:\x22hi\x22\x7d" ≠ "" ∧
      jsonParse "\x7b\x22sampleText\x22:\x22hi\x22\x7d" =
        some (Json.obj [("sampleText", Json.str "hi")])) ∧
      (handleAnalyze Mode.persona "q"
          (ModelResponse.ok (some "\x7b\x22sampleText\x22:\x22hi\x22\x7d")) =
        AnalyzeTrace.succeeded (makeRecommendation Mode.persona
          (decodeResult (Json.obj [("sampleText", Json.str "hi")]))) ∧
        ((decodeResult (Json.obj [("sampleText", Json.str "hi")])).systemInstruction = none →
          (makeRecommendation Mode.persona
            (decodeResult (Json.obj [("sampleText", Json.str "hi")]))).systemInstruction = "") ∧
        ((decodeResult (Json.obj [("sampleText", Json.str "hi")])).sampleText = none →
          (makeRecommendation Mode.persona
            (decodeResult (Json.obj [("sampleText", Json.str "hi")]))).sampleText = "") ∧
        (Mode.persona = Mode.persona →
          (decodeResult (Json.obj [("sampleText", Json.str "hi")])).recommendedVoices = none →
          (makeRecommendation Mode.persona
            (decodeResult (Json.obj [("sampleText", Json.str "hi")]))).voiceNames = []) ∧
        (Mode.persona = Mode.script →
          (decodeResult (Json.obj [("sampleText", Json.str "hi")])).scriptParts = none →
          (makeRecommendation Mode.persona
            (decodeResult (Json.obj [("sampleText", Json.str "hi")]))).voiceNames = [] ∧
          (makeRecommendation Mode.persona
            (decodeResult (Json.obj [("sampleText", Json.str "hi")]))).scriptParts = some [])) :=
  ⟨⟨by decide, by decide, by rfl⟩,
    claim_C7_missing_fields_defaulted Mode.persona "q"
      "\x7b\x22sampleText\x22:\x22hi\x22\x7d" (Json.obj [("sampleText", Json.str "hi")])
      (by decide) (by decide) (by rfl)⟩

/-- C8: in the copy-to-clipboard state machine, copying section a and then
section b within the display delay flags only b at query time; the flag
clears once the delay elapses; only the most recent copy is flagged. -/
theorem claim_C8_copy_last_wins (a b : String) (t0 t1 : Nat)
    (_h01 : t0 ≤ t1) (_h1d : t1 < t0 + copyResetDelay) (hab : a ≠ b) :
    (handleCopy (elapseTo (handleCopy initCopyState a t0) t1) b t1).copiedSection =
        some b ∧
      (handleCopy (elapseTo (handleCopy initCopyState a t0) t1) b t1).copiedSection ≠
        some a ∧
      (elapseTo (handleCopy (elapseTo (handleCopy initCopyState a t0) t1) b t1)
          (t1 + copyResetDelay)).copiedSection = none := by
  refine ⟨rfl, ?_, ?_⟩
  · intro hc
    injection hc with hc
    exact hab hc.symm
  · simp only [handleCopy, elapseTo, initCopyState, copyResetDelay] at *
    simp [List.any_append]

/-- Witness for C8: two concrete copies one second apart. -/
theorem claim_C8_witness :
    (0 ≤ 1000 ∧ 1000 < 0 + copyResetDelay ∧ "notes" ≠ "sample") ∧
      ((handleCopy (elapseTo (handleCopy initCopyState "notes" 0) 1000) "sample"
          1000).copiedSection = some "sample" ∧
        (handleCopy (elapseTo (handleCopy initCopyState "notes" 0) 1000) "sample"
          1000).copiedSection ≠ some "notes" ∧
        (elapseTo (handleCopy (elapseTo (handleCopy initCopyState "notes" 0) 1000)
          "sample" 1000) (1000 + copyResetDelay)).copiedSection = none) :=
  ⟨⟨by decide, by decide, by decide⟩,
    claim_C8_copy_last_wins "notes" "sample" 0 1000 (by decide) (by decide) (by decide)⟩

/-- C9: a response whose text payload is absent or empty does not fail:
the substituted empty-object literal parses and analyze succeeds with the
all-default recommendation for the mode, storing it through the result
handler. -/
theorem claim_C9_empty_text_default_success (st : FinderState) (mode : Mode)
    (query : String) (t : Option String) (hq : jsTrim query ≠ "")
    (ht : t = none ∨ t = some "") :
    handleAnalyze mode query (ModelResponse.ok t) =
        AnalyzeTrace.succeeded (defaultRecommendation mode) ∧
      applyAnalyze st mode query (ModelResponse.ok t) =
        { recommendation := some (defaultRecommendation mode), error := none } := by
  have hef : effectiveText t = "\x7b\x7d" := by
    rcases ht with rfl | rfl
    · rfl
    · rfl
  have hp : jsonParse "\x7b\x7d" = some (Json.obj []) := rfl
  have h2 : makeRecommendation mode (decodeResult (Json.obj [])) =
      defaultRecommendation mode := by
    cases mode <;> rfl
  have h1 : handleAnalyze mode query (ModelResponse.ok t) =
      AnalyzeTrace.succeeded (defaultRecommendation mode) := by
    simp only [handleAnalyze, if_neg hq, hef, hp, h2]
  refine ⟨h1, ?_⟩
  unfold applyAnalyze
  rw [h1]

/-- Witness for C9: an absent text payload in script mode. -/
theorem claim_C9_witness :
    (jsTrim "hi" ≠ "" ∧ ((none : Option String) = none ∨ (none : Option String) = some "")) ∧
      (handleAnalyze Mode.script "hi" (ModelResponse.ok none) =
          AnalyzeTrace.succeeded (defaultRecommendation Mode.script) ∧
        applyAnalyze { recommendation := none, error := some errorMessage }
            Mode.script "hi" (ModelResponse.ok none) =
          { recommendation := some (defaultRecommendation Mode.script), error := none }) :=
  ⟨⟨by decide, Or.inl rfl⟩,
    claim_C9_empty_text_default_success
      { recommendation := none, error := some errorMessage }
      Mode.script "hi" none (by decide) (Or.inl rfl)⟩

/-- C10: in script mode the deduplicated voiceNames list preserves the
first-occurrence order of voiceName values across scriptParts, for every
successful run. -/
theorem claim_C10_first_occurrence_order (query : String) (resp : ModelResponse)
    (r : AiRecommendation)
    (h : handleAnalyze Mode.script query resp = AnalyzeTrace.succeeded r) :
    r.voiceNames = firstOccurDedup ((r.scriptParts.getD []).map ScriptPart.voiceName) := by
  obtain ⟨j, rfl⟩ := handleAnalyze_succeeded_inv _ _ _ _ h
  simp only [makeRecommendation, Option.getD_some]
  exact arrayFromSet_eq_firstOccurDedup _

/-- Witness for C10: the concrete run with a repeated voiceName. -/
theorem claim_C10_witness :
    sampleScriptRec.voiceNames =
      firstOccurDedup ((sampleScriptRec.scriptParts.getD []).map ScriptPart.voiceName) :=
  claim_C10_first_occurrence_order "s" (ModelResponse.ok (some sampleScriptJson))
    sampleScriptRec (by decide)
